import Mathlib

/-!
Formal model of the ACE memory subsystem of codeACE (codex-rs/core/src/ace):
the similarity engine (similarity.rs), the bullet data model (types.rs), the
bullet store with delta merge / archiving / scored queries (storage.rs), the
recall tracker (recall_tracker.rs) and the background optimizer
(background_optimizer.rs), together with verified properties of these
definitions.

Modelling conventions:
- Strings are lists of Unicode scalar values (`List Char`), matching the
  `s.chars()` view the Rust code iterates over.  Rust byte lengths
  (`str::len`) are modelled by summing UTF-8 sizes (`byteLen`).
- `f32` arithmetic is modelled by exact rationals (`Rat`).  All constants
  involved (15.0, 0.85, 0.7, ...) are exactly representable, and no claim
  hinges on `f32` rounding.
- Timestamps (`DateTime<Utc>`) are modelled as integer numbers of seconds;
  `chrono::Duration::num_days` truncates toward zero, i.e. `Int.tdiv 86400`.
- `HashMap` iteration (sections of a playbook, n-gram tables) is modelled by
  lists; every use below is order-insensitive (sums, counts, membership), so
  the arbitrary iteration order of the Rust `HashMap` is immaterial.
- The snapshot of types.rs in this tree predates the recall-tracking fields
  (`recall_count`, `last_recall`, stored `success_rate`) and the helpers
  `BulletMetadata::record_recall`, `BulletMetadata::calculate_dynamic_weight`
  and `Playbook::remove_bullet`, which the rest of the code and its tests
  use.  Those members are modelled from the spec where marked below.
-/

set_option allowUnsafeReducibility true

attribute [local semireducible] Rat.add Rat.mul Rat.sub Rat.neg Rat.div Rat.inv Rat.ofScientific

namespace ACE

/-- Strings as sequences of Unicode scalar values, the `chars()` view. -/
abbrev Str := List Char

/-- UTF-8 byte length of a string, Rust's `str::len`. -/
def byteLen (s : Str) : Nat := (s.map Char.utf8Size).sum

/-- is_cjk (storage.rs / similarity.rs): CJK Unified Ideographs, Extension A,
Extension B and Compatibility Ideographs ranges. -/
def is_cjk (c : Char) : Bool :=
  (0x4E00 ≤ c.val && c.val ≤ 0x9FFF) ||
  (0x3400 ≤ c.val && c.val ≤ 0x4DBF) ||
  (0x20000 ≤ c.val && c.val ≤ 0x2A6DF) ||
  (0xF900 ≤ c.val && c.val ≤ 0xFAFF)

/-- Rust `char::to_lowercase`, restricted to the ASCII range (`Char.toLower`);
the inputs the claims exercise are ASCII or CJK, and CJK has no case. -/
def toLowerStr (s : Str) : Str := s.map Char.toLower

/-- Rust `char::is_alphanumeric`, approximated by ASCII alphanumerics plus the
CJK ideographs: exactly the character classes this code base distinguishes. -/
def is_alphanumeric_approx (c : Char) : Bool := c.isAlphanum || is_cjk c

/-- Does string a start with string b?  (Rust `str::starts_with`.) -/
def startsWithStr : Str → Str → Bool
  | _, [] => true
  | [], _ :: _ => false
  | a :: as, b :: bs => a = b && startsWithStr as bs

/-- Does string a end with string b?  (Rust `str::ends_with`.) -/
def endsWithStr (a b : Str) : Bool := startsWithStr a.reverse b.reverse

/-- Substring test, Rust `str::contains`.  A byte-level match of valid UTF-8
always falls on scalar-value boundaries, so this is equivalent to a
contiguous-subsequence test on the scalar values. -/
def containsStr : Str → Str → Bool
  | hay, sub =>
    startsWithStr hay sub ||
      match hay with
      | [] => false
      | _ :: t => containsStr t sub

/-- Recursion kernel for `levenshtein_distance`.  The first argument is pure
termination bookkeeping (it strictly bounds the total remaining length and is
never exhausted when called through `levenshtein_distance`); the recursion
equations on the two strings are the classic edit-distance recurrence. -/
def levFuel : Nat → Str → Str → Nat
  | _, [], s2 => s2.length
  | _, s1, [] => s1.length
  | 0, _, _ => 0
  | fuel + 1, c1 :: s1, c2 :: s2 =>
    min (min (levFuel fuel s1 (c2 :: s2) + 1)
             (levFuel fuel (c1 :: s1) s2 + 1))
        (levFuel fuel s1 s2 + (if c1 = c2 then 0 else 1))

/-- levenshtein_distance (similarity.rs): edit distance over Unicode scalar
values.  The Rust code fills the classic (n+1)x(m+1) dynamic-programming
table with matrix[i][0] = i, matrix[0][j] = j and
matrix[i+1][j+1] = min(matrix[i][j+1]+1, matrix[i+1][j]+1, matrix[i][j]+cost);
matrix[i][j] then equals the edit-distance recurrence on the length-i and
length-j prefixes, and the function returns matrix[len1][len2], i.e. the
recurrence on the full strings (realised here by `levFuel`, whose fuel
argument s1.length + s2.length always suffices).  The empty-string early
returns are the base cases. -/
def levenshtein_distance (s1 s2 : Str) : Nat :=
  levFuel (s1.length + s2.length) s1 s2

/-- similarity_score (similarity.rs): 1 - distance / max_len.  NOTE: the Rust
code computes max_len from `s1.len().max(s2.len())`, i.e. UTF-8 BYTE lengths,
while the distance is over scalar values. -/
def similarity_score (s1 s2 : Str) : ℚ :=
  let distance : ℚ := (levenshtein_distance s1 s2 : ℚ)
  let max_len : ℚ := ((max (byteLen s1) (byteLen s2) : Nat) : ℚ)
  if max_len = 0 then 1 else 1 - distance / max_len

/-- Edit similarity as the spec words it, for comparison with
`similarity_score`: 1 - distance/max(len(a), len(b)) with distance AND
lengths measured over Unicode scalar values. -/
def edit_similarity_scalar (s1 s2 : Str) : ℚ :=
  let distance : ℚ := (levenshtein_distance s1 s2 : ℚ)
  let max_len : ℚ := ((max s1.length s2.length : Nat) : ℚ)
  if max_len = 0 then 1 else 1 - distance / max_len

/-- extract_ngrams (similarity.rs): the multiset of contiguous n-grams of the
scalar-value sequence, as the list of grams in order (the Rust HashMap of
counts is recovered through `List.count`). -/
def extract_ngrams (text : Str) (n : Nat) : List Str :=
  if text.length < n then []
  else (List.range (text.length - n + 1)).map (fun i => (text.drop i).take n)

/-- ngram_similarity (similarity.rs): intersection = sum over grams of s1 of
min(count1, count2); total = total gram count of s1 plus the count of grams
of s2 whose gram does not occur in s1 at all. -/
def ngram_similarity (s1 s2 : Str) (n : Nat) : ℚ :=
  let ngrams1 := extract_ngrams s1 n
  let ngrams2 := extract_ngrams s2 n
  if ngrams1.isEmpty && ngrams2.isEmpty then 1
  else if ngrams1.isEmpty || ngrams2.isEmpty then 0
  else
    let intersection := (ngrams1.dedup.map (fun g => min (ngrams1.count g) (ngrams2.count g))).sum
    let total := ngrams1.length + (ngrams2.filter (fun g => ¬ g ∈ ngrams1)).length
    if total = 0 then 0 else (intersection : ℚ) / (total : ℚ)

/-- combined_similarity (similarity.rs): 0.4 Levenshtein + 0.3 bigram + 0.3
trigram. -/
def combined_similarity (s1 s2 : Str) : ℚ :=
  let lev_score := similarity_score s1 s2
  let bigram_score := ngram_similarity s1 s2 2
  let trigram_score := ngram_similarity s1 s2 3
  lev_score * 0.4 + bigram_score * 0.3 + trigram_score * 0.3

/-- normalize_text (similarity.rs): lowercase, optionally keep only
alphanumeric / whitespace / CJK characters, collapse whitespace runs. -/
def normalize_text (text : Str) (remove_punctuation : Bool) : Str :=
  let lowered := toLowerStr text
  let filtered :=
    if remove_punctuation then
      lowered.filter (fun c => is_alphanumeric_approx c || c.isWhitespace)
    else lowered
  List.intercalate [' ']
    ((filtered.splitOnP (fun c => c.isWhitespace)).filter (fun w => ¬ w.isEmpty))

/-- BulletMetadata (types.rs), restricted to the fields the verified claims
touch (source_type, applicability, reference_count, related_file_patterns and
confidence carry no behaviour here).  The last three fields are the
recall-tracking members used throughout recall_tracker.rs,
background_optimizer.rs and their tests.
`recall_count`, `last_recall`, `success_rate`: modelled from the spec (the
types.rs snapshot in this tree predates them): recall_count counts recalls,
last_recall is the optional timestamp of the latest recall, and success_rate
is stored but always recomputed as success_count/(success_count+failure_count). -/
structure BulletMetadata where
  importance : ℚ
  success_count : Nat
  failure_count : Nat
  related_tools : List Str
  recall_count : Nat
  last_recall : Option Int
  success_rate : ℚ
deriving DecidableEq

/-- Bullet (types.rs).  `code_content`, `source_session_id` and `section`
carry no behaviour in the verified claims; sections only group the bullets
inside the playbook's HashMap, and every claim below is insensitive to that
grouping, so a playbook's bullets are modelled as one flattened list (the
order of `bullets.values().flatten()`). -/
structure Bullet where
  id : Str
  created_at : Int
  updated_at : Int
  content : Str
  tags : List Str
  metadata : BulletMetadata
deriving DecidableEq

/-- Bullet::success_rate (types.rs): success_count/(success_count+failure_count),
0 when there are no attempts. -/
def Bullet.success_rate (b : Bullet) : ℚ :=
  let total := b.metadata.success_count + b.metadata.failure_count
  if total = 0 then 0 else (b.metadata.success_count : ℚ) / (total : ℚ)

/-- Playbook (types.rs): version counter, last-updated timestamp, the bullets
(see `Bullet` for the flattening of the section map) and the maintained
total_bullets counter of PlaybookMetadata.  section_counts, created_at and
total_sessions carry no behaviour in the verified claims. -/
structure Playbook where
  version : Nat
  last_updated : Int
  bullets : List Bullet
  total_bullets : Nat
deriving DecidableEq

/-- Playbook::new (types.rs): version 1, no bullets. -/
def Playbook.new (now : Int) : Playbook :=
  { version := 1, last_updated := now, bullets := [], total_bullets := 0 }

/-- Playbook::add_bullet (types.rs): push the bullet into its section's list,
bump total_bullets and version, refresh last_updated. -/
def Playbook.add_bullet (pb : Playbook) (b : Bullet) (now : Int) : Playbook :=
  { version := pb.version + 1
    last_updated := now
    bullets := pb.bullets ++ [b]
    total_bullets := pb.total_bullets + 1 }

/-- Playbook::find_bullet (types.rs): first bullet with the given id. -/
def Playbook.find_bullet (pb : Playbook) (id : Str) : Option Bullet :=
  pb.bullets.find? (fun b => b.id = id)

/-- Replace the first bullet carrying the id of the replacement
(the bullets[pos] = updated step of Playbook::update_bullet). -/
def replaceFirst : List Bullet → Bullet → List Bullet
  | [], _ => []
  | c :: rest, b => if c.id = b.id then b :: rest else c :: replaceFirst rest b

/-- Playbook::update_bullet (types.rs): replace the first bullet with the
same id in place, bump version and last_updated, report success. -/
def Playbook.update_bullet (pb : Playbook) (b : Bullet) (now : Int) : Playbook × Bool :=
  if pb.bullets.any (fun c => c.id = b.id) then
    ({ pb with
        bullets := replaceFirst pb.bullets b
        version := pb.version + 1
        last_updated := now }, true)
  else (pb, false)

/-- Playbook::remove_bullet.  Modelled from the spec: the helper the
maintainer uses for bullet destruction ("removal only"), missing from the
types.rs snapshot; it removes the bullet with the given id and keeps the
aggregate count consistent. -/
def Playbook.remove_bullet (pb : Playbook) (id : Str) : Playbook :=
  let bullets := pb.bullets.filter (fun b => ¬ b.id = id)
  { pb with bullets := bullets, total_bullets := bullets.length }

/-- DeltaContext (types.rs), restricted to the mutation payload (session and
processing metadata carry no behaviour). -/
structure DeltaContext where
  new_bullets : List Bullet
  updated_bullets : List Bullet
deriving DecidableEq

/-- DeltaContext::is_empty (types.rs). -/
def DeltaContext.is_empty (d : DeltaContext) : Bool :=
  d.new_bullets.isEmpty && d.updated_bullets.isEmpty

/-- Insertion sort by a key, in descending key order.  Models the
`sort_by(|a, b| key(b).partial_cmp(&key(a)))` calls of storage.rs (scores in
query_bullets, updated_at in auto_archive); every verified property is
insensitive to how ties are ordered, so the stability of Rust's sort is not
needed. -/
def sortByKeyDesc {α β : Type} [LinearOrder β] (key : α → β) (l : List α) : List α :=
  l.insertionSort (fun a b => key b ≤ key a)

/-- The state a BulletStorage (storage.rs) persists: the playbook file plus
the archive directory, the latter as the list of archived snapshots in
creation order (each auto_archive run writes one new timestamped file). -/
structure StorageState where
  playbook : Playbook
  archives : List Playbook
deriving DecidableEq

/-- BulletStorage::auto_archive (storage.rs): write the full current playbook
as one new archive file, then rebuild the playbook from scratch keeping the
keep_count most recently updated bullets, where
keep_count = (max_bullets as f32 * 0.7) as usize.  The f32 product is
modelled exactly as floor(7 * max_bullets / 10); the two agree for every
capacity that is not astronomically large (the default is 500). -/
def auto_archive (pb : Playbook) (archives : List Playbook) (max_bullets : Nat)
    (now : Int) : Playbook × List Playbook :=
  let keep_count := 7 * max_bullets / 10
  let sorted := sortByKeyDesc (fun b => b.updated_at) pb.bullets
  let kept := sorted.take keep_count
  let rebuilt := kept.foldl (fun acc b => acc.add_bullet b now) (Playbook.new now)
  (rebuilt, archives ++ [pb])

/-- Steps 1 and 2 of BulletStorage::merge_delta (storage.rs): add the new
bullets, then apply the in-place updates by id (unknown ids are logged and
skipped without aborting the rest). -/
def apply_delta_in_memory (pb : Playbook) (delta : DeltaContext) (now : Int) : Playbook :=
  delta.updated_bullets.foldl (fun acc b => (acc.update_bullet b now).1)
    (delta.new_bullets.foldl (fun acc b => acc.add_bullet b now) pb)

/-- The in-memory part of BulletStorage::merge_delta (storage.rs): an empty
delta is a no-op, otherwise apply the delta and archive-and-trim if
total_bullets exceeds max_bullets. -/
def merge_delta (st : StorageState) (delta : DeltaContext) (max_bullets : Nat)
    (now : Int) : StorageState :=
  if delta.is_empty then st
  else
    let pb2 := apply_delta_in_memory st.playbook delta now
    if pb2.total_bullets > max_bullets then
      let (pb3, archives3) := auto_archive pb2 st.archives max_bullets now
      { playbook := pb3, archives := archives3 }
    else { st with playbook := pb2 }

/-- STOP_WORDS (storage.rs). -/
def stop_words : List Str :=
  (["a", "an", "the", "is", "are", "was", "were", "be", "been", "being", "to", "of", "in",
    "for", "on", "with", "at", "by", "from", "as", "it", "its", "this", "that", "these",
    "those", "which", "what", "who", "how", "when", "where", "why", "all", "each", "every",
    "both", "few", "and", "or", "but", "not", "no", "nor", "so", "yet", "if", "then",
    "else", "can", "could", "will", "would", "shall", "should", "may", "might", "must",
    "do", "does", "did", "done", "doing", "has", "have", "had", "having", "am", "your",
    "my", "our", "his", "her", "their", "me", "you", "we", "he", "she"]).map String.toList

/-- simple_stem (storage.rs).  The function is only reached with all-ASCII
words (extract_keywords checks is_ascii_alphanumeric first), so the byte
lengths and byte slices of the Rust code coincide with scalar-value lengths
and prefixes here. -/
def simple_stem (w : Str) : Option Str :=
  let word := toLowerStr w
  let len := word.length
  if endsWithStr word ("ing".toList) && decide (5 < len) then
    let stem := word.take (len - 3)
    match stem.reverse with
    | c1 :: c2 :: _ =>
      if c1 = c2 && !(c1 ∈ ['a', 'e', 'i', 'o', 'u']) then
        some (stem.take (stem.length - 1))
      else some stem
    | _ => some stem
  else if endsWithStr word ("ed".toList) && decide (4 < len) then
    -- both branches of the Rust -ed case return the stem unchanged
    some (word.take (len - 2))
  else if endsWithStr word ("es".toList) && decide (4 < len) then
    let without_es := word.take (len - 2)
    if endsWithStr without_es ("ch".toList) || endsWithStr without_es ("sh".toList) ||
        endsWithStr without_es ("x".toList) || endsWithStr without_es ("s".toList) ||
        endsWithStr without_es ("z".toList) then
      some without_es
    else some (word.take (len - 1))
  else if endsWithStr word ("s".toList) && decide (3 < len) &&
      !endsWithStr word ("ss".toList) && !endsWithStr word ("us".toList) then
    some (word.take (len - 1))
  else if endsWithStr word ("ly".toList) && decide (4 < len) then
    some (word.take (len - 2))
  else if endsWithStr word ("er".toList) && decide (4 < len) then
    let stem := word.take (len - 2)
    if ((stem.getLast?.map Char.isAlpha).getD false) &&
        (endsWithStr stem ("fast".toList) || endsWithStr stem ("slow".toList) ||
          endsWithStr stem ("quick".toList)) then
      some stem
    else none
  else none

/-- BulletStorage::extract_keywords (storage.rs), applied to the lowercased
query: ASCII words (non-alphanumeric boundaries, length ≥ 2, stop words
dropped, plus their distinct non-stop-word stems), then CJK bigrams and the
full CJK character run when at least two CJK characters occur.  The Rust code
sorts the keywords and drops consecutive duplicates; every consumer is
order-insensitive (sums, lengths, membership), so plain deduplication keeps
the same semantics. -/
def extract_keywords (query_lower : Str) : List Str :=
  let words := query_lower.splitOnP (fun c => !is_alphanumeric_approx c)
  let eng := words.foldl
    (fun acc word =>
      if word.isEmpty then acc
      else if word.all Char.isAlphanum then
        if decide (2 ≤ word.length) && !(word ∈ stop_words) then
          match simple_stem word with
          | some stem =>
            if !(stem = word) && !(stem ∈ stop_words) then acc ++ [word, stem]
            else acc ++ [word]
          | none => acc ++ [word]
        else acc
      else acc)
    []
  let chinese := query_lower.filter is_cjk
  let all :=
    if 2 ≤ chinese.length then
      eng ++ ((List.range (chinese.length - 1)).map
                (fun i => (chinese.drop i).take 2)) ++ [chinese]
    else eng
  all.dedup

/-- The per-keyword content score of query_bullets (storage.rs), by keyword
byte length: 2.0 for 2..=3, 4.0 for 4..=6, 5.0 otherwise. -/
def word_score (len : Nat) : ℚ :=
  if 2 ≤ len ∧ len ≤ 3 then 2 else if 4 ≤ len ∧ len ≤ 6 then 4 else 5

/-- The bonus query_bullets adds when the lowercased content contains the
full lowercased query. -/
def full_query_bonus : ℚ := 15

/-- The bonus query_bullets adds per keyword found in the joined tags. -/
def tag_bonus : ℚ := 3

/-- The layered per-bullet score of BulletStorage::query_bullets
(storage.rs): exact layer (full-query hit, keyword hits in content and tags,
CJK keyword hits), fuzzy layer when fewer than 2 matches, metadata layer when
at least 2 matches, then the low-quality penalty. -/
def score_bullet (query_lower query_normalized : Str) (keywords : List Str)
    (b : Bullet) : ℚ :=
  let content_lower := toLowerStr b.content
  let content_normalized := normalize_text content_lower true
  let tags_str := toLowerStr (List.intercalate [' '] b.tags)
  let acc0 : ℚ × Nat :=
    if containsStr content_lower query_lower then (full_query_bonus, 3) else (0, 0)
  let acc1 := keywords.foldl
    (fun (acc : ℚ × Nat) kw =>
      let acc :=
        if containsStr content_lower kw then
          (acc.1 + word_score (byteLen kw), acc.2 + 1)
        else acc
      if containsStr tags_str kw then (acc.1 + tag_bonus, acc.2 + 1) else acc)
    acc0
  let content_chinese := content_lower.filter is_cjk
  let acc2 := keywords.foldl
    (fun (acc : ℚ × Nat) kw =>
      if kw.all is_cjk && containsStr content_chinese kw then
        (acc.1 + min (kw.length : ℚ) 4, acc.2 + 1)
      else acc)
    acc1
  let acc3 :=
    if acc2.2 < 2 then
      let overall_similarity := combined_similarity query_normalized content_normalized
      if overall_similarity > 0.7 then (acc2.1 + overall_similarity * 8, acc2.2 + 1)
      else if overall_similarity > 0.5 then (acc2.1 + overall_similarity * 4, acc2.2)
      else acc2
    else acc2
  let score4 :=
    if 2 ≤ acc3.2 then
      let s1 := acc3.1 + b.metadata.importance * 3
      let s2 := if b.success_rate > 0.7 then s1 + 2 else s1
      let s3 := b.metadata.related_tools.foldl
        (fun s tool => if containsStr query_lower (toLowerStr tool) then s + 3 else s) s2
      keywords.foldl
        (fun s kw =>
          b.tags.foldl
            (fun s tag =>
              let tag_lower := toLowerStr tag
              if startsWithStr tag_lower ("lang:".toList) then
                let lang := tag_lower.drop 5
                if lang = kw ∨ containsStr kw lang then s + 2 else s
              else s)
            s)
        s3
    else acc3.1
  if !keywords.isEmpty then
    let match_ratio : ℚ := (acc3.2 : ℚ) / (keywords.length : ℚ)
    if match_ratio < 0.3 ∧ score4 > 0 then score4 * 0.5 else score4
  else score4

/-- BulletStorage::query_bullets (storage.rs) with the scores still attached:
score every bullet, keep those scoring above 2.0, sort by score descending,
take the first max_results. -/
def query_bullets_scored (pb : Playbook) (query : Str) (max_results : Nat) :
    List (Bullet × ℚ) :=
  let query_lower := toLowerStr query
  let query_normalized := normalize_text query_lower true
  let keywords := extract_keywords query_lower
  let results := pb.bullets.filterMap
    (fun b =>
      let score := score_bullet query_lower query_normalized keywords b
      if score > 2 then some (b, score) else none)
  (sortByKeyDesc (fun r => r.2) results).take max_results

/-- BulletStorage::query_bullets (storage.rs): the returned bullets. -/
def query_bullets (pb : Playbook) (query : Str) (max_results : Nat) : List Bullet :=
  (query_bullets_scored pb query max_results).map (fun r => r.1)

/-- BulletMetadata::record_recall.  Modelled from the spec (missing from
the types.rs snapshot): each recorded recall increments recall_count, stamps
last_recall with the current time, bumps the success or the failure counter
according to the outcome, and recomputes the stored success_rate exactly as
success_count/(success_count+failure_count).  The context argument only
feeds the bounded recall_contexts history, which no claim touches. -/
def BulletMetadata.record_recall (m : BulletMetadata) (_context : Str)
    (success : Bool) (now : Int) : BulletMetadata :=
  let sc := if success then m.success_count + 1 else m.success_count
  let fc := if success then m.failure_count else m.failure_count + 1
  { m with
      recall_count := m.recall_count + 1
      last_recall := some now
      success_count := sc
      failure_count := fc
      success_rate := (sc : ℚ) / ((sc + fc : Nat) : ℚ) }

/-- The in-place mutation of Playbook::find_bullet_mut followed by
record_recall: rewrite the first bullet carrying the id, leave the playbook
untouched (and in particular its version) when the id is unknown. -/
def touchFirst (id : Str) (f : Bullet → Bullet) : List Bullet → List Bullet
  | [] => []
  | b :: rest => if b.id = id then f b :: rest else b :: touchFirst id f rest

/-- RecallTracker::record_bullet_usage (recall_tracker.rs): for each listed
id, find the bullet and record the recall; unknown ids are logged and
skipped without aborting the remaining updates; the playbook is then saved. -/
def record_bullet_usage (pb : Playbook) (bullet_ids : List Str) (context : Str)
    (success : Bool) (now : Int) : Playbook :=
  { pb with
      bullets := bullet_ids.foldl
        (fun bs i =>
          touchFirst i
            (fun b => { b with metadata := b.metadata.record_recall context success now })
            bs)
        pb.bullets }

/-- chrono::Duration::num_days on a duration of d seconds: whole days,
truncated toward zero. -/
def numDays (d : Int) : Int := Int.tdiv d 86400

/-- BackgroundOptimizer::should_remove (background_optimizer.rs): a recall
within the last 7 days always protects the bullet; otherwise remove when
never recalled and older than 30 days, or recalled more than 5 times with
success_rate below 0.2, or content shorter than 30 bytes with importance
below 0.3. -/
def should_remove (now : Int) (b : Bullet) : Bool :=
  let rest : Bool :=
    if b.metadata.recall_count = 0 ∧ 30 < numDays (now - b.created_at) then true
    else if 5 < b.metadata.recall_count ∧ b.metadata.success_rate < 0.2 then true
    else if byteLen b.content < 30 ∧ b.metadata.importance < 0.3 then true
    else false
  match b.metadata.last_recall with
  | some last_recall => if numDays (now - last_recall) < 7 then false else rest
  | none => rest

/-- BackgroundOptimizer::cleanup_low_value (background_optimizer.rs): collect
every bullet with should_remove and remove each collected id. -/
def cleanup_low_value (now : Int) (pb : Playbook) : Playbook :=
  let to_remove := (pb.bullets.filter (fun b => should_remove now b)).map (fun b => b.id)
  to_remove.foldl (fun acc id => acc.remove_bullet id) pb

/-- The inner j-loop of BackgroundOptimizer::deduplicate_similar
(background_optimizer.rs), comparing bullet bi against every later bullet:
already-marked later bullets are skipped; when the combined similarity of the
normalized contents reaches 0.85 the bullet with the lower dynamic weight is
marked for removal, bi surviving ties (weight_i >= weight_j keeps bi).  The
dynamic weight is the pluggable calculate_dynamic_weight of the spec, passed
in as w. -/
def dedupInner (w : BulletMetadata → ℚ) (bi : Bullet) :
    List Bullet → List Str → List Str
  | [], marked => marked
  | bj :: rest, marked =>
    if bj.id ∈ marked then dedupInner w bi rest marked
    else
      let similarity := combined_similarity (normalize_text bi.content true)
        (normalize_text bj.content true)
      if 0.85 ≤ similarity then
        let loser := if w bj.metadata ≤ w bi.metadata then bj.id else bi.id
        dedupInner w bi rest (marked ++ [loser])
      else dedupInner w bi rest marked

/-- The outer i-loop of BackgroundOptimizer::deduplicate_similar: bullets
already marked for removal are skipped as comparand. -/
def dedupOuter (w : BulletMetadata → ℚ) : List Bullet → List Str → List Str
  | [], marked => marked
  | b :: rest, marked =>
    if b.id ∈ marked then dedupOuter w rest marked
    else dedupOuter w rest (dedupInner w b rest marked)

/-- BackgroundOptimizer::deduplicate_similar (background_optimizer.rs): mark
near-duplicates pairwise, then remove every marked id. -/
def deduplicate_similar (w : BulletMetadata → ℚ) (pb : Playbook) : Playbook :=
  let to_remove := dedupOuter w pb.bullets []
  to_remove.foldl (fun acc id => acc.remove_bullet id) pb

/-! ### Concrete fixtures used by the closed theorems below -/

/-- Metadata as BulletMetadata::default builds it (importance 0.5, all
counters zero, no recalls). -/
def sample_metadata : BulletMetadata :=
  { importance := 1 / 2, success_count := 0, failure_count := 0, related_tools := []
    recall_count := 0, last_recall := none, success_rate := 0 }

/-- A bullet with the given id, content and update time and default-like
metadata. -/
def sample_bullet (id content : String) (updated : Int) : Bullet :=
  { id := id.toList, created_at := 0, updated_at := updated, content := content.toList
    tags := [], metadata := sample_metadata }

/-- One-bullet playbook for the query counterexample and witnesses. -/
def sample_pb1 : Playbook :=
  { version := 2, last_updated := 0, bullets := [sample_bullet "a" "hello" 0]
    total_bullets := 1 }

/-- Three bullets with identical content, for the dedup counterexample. -/
def sample_pb3 : Playbook :=
  { version := 4, last_updated := 0
    bullets := [sample_bullet "a" "same" 0, sample_bullet "b" "same" 0,
                sample_bullet "c" "same" 0]
    total_bullets := 3 }

/-- Two-bullet store used by the merge counterexamples and witnesses. -/
def sample_store : StorageState :=
  { playbook := { version := 3, last_updated := 0
                  bullets := [sample_bullet "a" "alpha text" 10,
                              sample_bullet "b" "beta text" 20]
                  total_bullets := 2 }
    archives := [] }

/-- A bullet whose content is exactly the 7-byte keyword "octopus", with
importance 0 so the metadata layer adds nothing. -/
def sample_octopus : Bullet :=
  { id := "x".toList, created_at := 0, updated_at := 0, content := "octopus".toList
    tags := [], metadata := { sample_metadata with importance := 0 } }


/-- A recently recalled bullet plus the playbook holding it (for the
eviction-protection witness). -/
def sample_recent : Bullet :=
  { id := "r".toList, created_at := 0, updated_at := 0, content := "tiny".toList
    tags := []
    metadata := { sample_metadata with last_recall := some 90, recall_count := 1 } }

/-- Playbook holding just `sample_recent`. -/
def sample_pb_recent : Playbook :=
  { version := 2, last_updated := 0, bullets := [sample_recent], total_bullets := 1 }

/-- Playbook holding just `sample_octopus`. -/
def sample_pb_oct : Playbook :=
  { version := 2, last_updated := 0, bullets := [sample_octopus], total_bullets := 1 }

/-- Two distinct-id bullets with identical content (for the dedup witness). -/
def sample_pb_two : Playbook :=
  { version := 3, last_updated := 0
    bullets := [sample_bullet "a" "same" 0, sample_bullet "b" "same" 0]
    total_bullets := 2 }

/-! ## Verified properties -/

theorem levFuel_nil_left (f : Nat) (s2 : Str) : levFuel f [] s2 = s2.length := by
  cases f <;> cases s2 <;> simp [levFuel]

theorem levFuel_nil_right (f : Nat) (s1 : Str) : levFuel f s1 [] = s1.length := by
  cases f <;> cases s1 <;> simp [levFuel]

theorem levFuel_congr : ∀ (f1 : Nat) (f2 : Nat) (s1 s2 : Str),
    s1.length + s2.length ≤ f1 → s1.length + s2.length ≤ f2 →
    levFuel f1 s1 s2 = levFuel f2 s1 s2 := by
  intro f1
  induction f1 with
  | zero =>
    intro f2 s1 s2 h1 h2
    cases s1 with
    | nil => rw [levFuel_nil_left, levFuel_nil_left]
    | cons c1 t1 => simp at h1
  | succ g ih =>
    intro f2 s1 s2 h1 h2
    cases s1 with
    | nil => rw [levFuel_nil_left, levFuel_nil_left]
    | cons c1 t1 =>
      cases s2 with
      | nil => rw [levFuel_nil_right, levFuel_nil_right]
      | cons c2 t2 =>
        cases f2 with
        | zero => simp at h2
        | succ k =>
          show min (min (levFuel g t1 (c2 :: t2) + 1) (levFuel g (c1 :: t1) t2 + 1))
                (levFuel g t1 t2 + (if c1 = c2 then 0 else 1)) =
              min (min (levFuel k t1 (c2 :: t2) + 1) (levFuel k (c1 :: t1) t2 + 1))
                (levFuel k t1 t2 + (if c1 = c2 then 0 else 1))
          simp only [List.length_cons] at h1 h2
          rw [ih k t1 (c2 :: t2) (by simp only [List.length_cons]; omega)
                (by simp only [List.length_cons]; omega),
              ih k (c1 :: t1) t2 (by simp only [List.length_cons]; omega)
                (by simp only [List.length_cons]; omega),
              ih k t1 t2 (by omega) (by omega)]

theorem lev_cons (c1 c2 : Char) (s1 s2 : Str) :
    levenshtein_distance (c1 :: s1) (c2 :: s2) =
      min (min (levenshtein_distance s1 (c2 :: s2) + 1)
               (levenshtein_distance (c1 :: s1) s2 + 1))
          (levenshtein_distance s1 s2 + (if c1 = c2 then 0 else 1)) := by
  show levFuel ((c1 :: s1).length + (c2 :: s2).length) (c1 :: s1) (c2 :: s2) = _
  have h : (c1 :: s1).length + (c2 :: s2).length = (s1.length + s2.length) + 1 + 1 := by
    simp only [List.length_cons]; omega
  rw [h]
  show min (min (levFuel (s1.length + s2.length + 1) s1 (c2 :: s2) + 1)
          (levFuel (s1.length + s2.length + 1) (c1 :: s1) s2 + 1))
        (levFuel (s1.length + s2.length + 1) s1 s2 + (if c1 = c2 then 0 else 1)) = _
  rw [levFuel_congr (s1.length + s2.length + 1) (s1.length + (c2 :: s2).length) s1 (c2 :: s2)
        (by simp only [List.length_cons]; omega) (by simp only [List.length_cons]; omega),
      levFuel_congr (s1.length + s2.length + 1) ((c1 :: s1).length + s2.length) (c1 :: s1) s2
        (by simp only [List.length_cons]; omega) (by simp only [List.length_cons]; omega),
      levFuel_congr (s1.length + s2.length + 1) (s1.length + s2.length) s1 s2
        (by omega) (by omega)]
  rfl

theorem lev_nil_left (s2 : Str) : levenshtein_distance [] s2 = s2.length :=
  levFuel_nil_left _ s2

theorem lev_nil_right (s1 : Str) : levenshtein_distance s1 [] = s1.length :=
  levFuel_nil_right _ s1


theorem lev_self : ∀ s : Str, levenshtein_distance s s = 0 := by
  intro s
  induction s with
  | nil => rw [lev_nil_left]; rfl
  | cons c t ih =>
    rw [lev_cons, ih, if_pos rfl]
    omega

theorem lev_comm : ∀ (n : Nat) (s1 s2 : Str), s1.length + s2.length = n →
    levenshtein_distance s1 s2 = levenshtein_distance s2 s1 := by
  intro n
  induction n using Nat.strong_induction_on with
  | _ n ih =>
    intro s1 s2 hn
    cases s1 with
    | nil => rw [lev_nil_left, lev_nil_right]
    | cons c1 t1 =>
      cases s2 with
      | nil => rw [lev_nil_left, lev_nil_right]
      | cons c2 t2 =>
        rw [lev_cons, lev_cons]
        simp only [List.length_cons] at hn
        rw [ih (t1.length + (c2 :: t2).length) (by simp only [List.length_cons]; omega)
              t1 (c2 :: t2) rfl,
            ih ((c1 :: t1).length + t2.length) (by simp only [List.length_cons]; omega)
              (c1 :: t1) t2 rfl,
            ih (t1.length + t2.length) (by omega) t1 t2 rfl]
        have hc : (if c1 = c2 then (0 : Nat) else 1) = (if c2 = c1 then 0 else 1) := by
          by_cases h : c1 = c2
          · simp [h]
          · rw [if_neg h, if_neg (fun hh => h hh.symm)]
        rw [hc, min_comm (levenshtein_distance (c2 :: t2) t1 + 1)
              (levenshtein_distance t2 (c1 :: t1) + 1)]

theorem lev_le_max : ∀ s1 s2 : Str,
    levenshtein_distance s1 s2 ≤ max s1.length s2.length := by
  intro s1
  induction s1 with
  | nil => intro s2; rw [lev_nil_left]; omega
  | cons c1 t1 ih =>
    intro s2
    cases s2 with
    | nil => rw [lev_nil_right]; omega
    | cons c2 t2 =>
      rw [lev_cons]
      have h1 := ih t2
      have h2 : (if c1 = c2 then (0:Nat) else 1) ≤ 1 := by
        by_cases h : c1 = c2 <;> simp [h]
      simp only [List.length_cons]
      omega


theorem length_le_byteLen (s : Str) : s.length ≤ byteLen s := by
  induction s with
  | nil => simp [byteLen]
  | cons c t ih =>
    have hc : 1 ≤ c.utf8Size := Char.utf8Size_pos c
    simp only [byteLen, List.map_cons, List.sum_cons, List.length_cons] at *
    omega

theorem similarity_score_bounds (a b : Str) :
    0 ≤ similarity_score a b ∧ similarity_score a b ≤ 1 := by
  unfold similarity_score
  by_cases hm : ((max (byteLen a) (byteLen b) : Nat) : ℚ) = 0
  · rw [if_pos hm]; constructor <;> norm_num
  · rw [if_neg hm]
    have hmpos : 0 < ((max (byteLen a) (byteLen b) : Nat) : ℚ) :=
      lt_of_le_of_ne (Nat.cast_nonneg _) (Ne.symm hm)
    have hd : (levenshtein_distance a b : ℚ) ≤ ((max (byteLen a) (byteLen b) : Nat) : ℚ) := by
      have h1 : levenshtein_distance a b ≤ max a.length b.length := lev_le_max a b
      have h2 : max a.length b.length ≤ max (byteLen a) (byteLen b) := by
        have := length_le_byteLen a
        have := length_le_byteLen b
        omega
      exact_mod_cast le_trans h1 h2
    have hdiv0 : 0 ≤ (levenshtein_distance a b : ℚ) / ((max (byteLen a) (byteLen b) : Nat) : ℚ) :=
      div_nonneg (Nat.cast_nonneg _) (le_of_lt hmpos)
    have hdiv1 : (levenshtein_distance a b : ℚ) / ((max (byteLen a) (byteLen b) : Nat) : ℚ) ≤ 1 :=
      (div_le_one hmpos).mpr hd
    constructor <;> linarith

theorem similarity_score_self (a : Str) : similarity_score a a = 1 := by
  unfold similarity_score
  by_cases hm : ((max (byteLen a) (byteLen a) : Nat) : ℚ) = 0
  · rw [if_pos hm]
  · rw [if_neg hm, lev_self]
    norm_num

theorem extract_ngrams_short (a : Str) (n : Nat) (h : a.length < n) :
    extract_ngrams a n = [] := by
  rw [extract_ngrams, if_pos h]

theorem ngram_similarity_short (a b : Str) (n : Nat) (ha : a.length < n)
    (hb : b.length < n) : ngram_similarity a b n = 1 := by
  rw [ngram_similarity]
  rw [extract_ngrams_short a n ha, extract_ngrams_short b n hb]
  rfl

theorem combined_similarity_single (c d : Char) :
    (0.6 : ℚ) ≤ combined_similarity [c] [d] := by
  rw [combined_similarity]
  rw [ngram_similarity_short [c] [d] 2 (by simp) (by simp),
      ngram_similarity_short [c] [d] 3 (by simp) (by simp)]
  have h := (similarity_score_bounds [c] [d]).1
  nlinarith

theorem byteLen_ne_zero (a : Str) (h : a ≠ []) : byteLen a ≠ 0 := by
  have h1 : 1 ≤ a.length := by
    cases a with
    | nil => exact absurd rfl h
    | cons c t => simp
  have h2 := length_le_byteLen a
  omega

/-- C9: over all strings, Levenshtein distance is symmetric, the distance of
a string to itself is 0, and the distance from the empty string is the
scalar-value length of the other string. -/
theorem claim_C9 (a b s : Str) :
    levenshtein_distance a b = levenshtein_distance b a ∧
    levenshtein_distance a a = 0 ∧
    levenshtein_distance [] s = s.length :=
  ⟨lev_comm (a.length + b.length) a b rfl, lev_self a, lev_nil_left s⟩

/-- C8 counterexample: the claim measures both distance and lengths over
Unicode scalar values, but similarity_score divides by the MAX BYTE length
(str::len).  On the one-scalar strings "é" (2 UTF-8 bytes) and "a" the code
yields 1 - 1/2 = 1/2, while the claimed scalar-value formula yields
1 - 1/1 = 0. -/
theorem claim_C8_counterexample :
    similarity_score ['é'] ['a'] = 1 / 2 ∧
    edit_similarity_scalar ['é'] ['a'] = 0 ∧
    ¬ similarity_score ['é'] ['a'] = edit_similarity_scalar ['é'] ['a'] := by
  decide

/-- C8 amended: edit similarity equals 1 - levenshtein/max of the UTF-8 BYTE
lengths (which coincides with the scalar-value count only on ASCII), is 1.0
when both strings are empty, always lies in the interval 0..1, and equals
1.0 whenever the two strings are equal. -/
theorem claim_C8 (a b : Str) :
    (a ≠ [] ∨ b ≠ [] →
      similarity_score a b =
        1 - (levenshtein_distance a b : ℚ) / ((max (byteLen a) (byteLen b) : Nat) : ℚ)) ∧
    similarity_score ([] : Str) [] = 1 ∧
    (0 ≤ similarity_score a b ∧ similarity_score a b ≤ 1) ∧
    (a = b → similarity_score a b = 1) := by
  refine ⟨?_, by decide, similarity_score_bounds a b, ?_⟩
  · intro h
    have hmax : max (byteLen a) (byteLen b) ≠ 0 := by
      cases h with
      | inl h => have := byteLen_ne_zero a h; omega
      | inr h => have := byteLen_ne_zero b h; omega
    have hq : ((max (byteLen a) (byteLen b) : Nat) : ℚ) ≠ 0 := by
      exact_mod_cast hmax
    unfold similarity_score
    rw [if_neg hq]
  · intro h
    rw [h]
    exact similarity_score_self b

theorem claim_C8_witness :
    similarity_score ['x'] ['y'] =
      1 - (levenshtein_distance ['x'] ['y'] : ℚ) /
        ((max (byteLen ['x']) (byteLen ['y']) : Nat) : ℚ) ∧
    similarity_score ['x'] ['x'] = 1 :=
  ⟨(claim_C8 ['x'] ['y']).1 (Or.inl (by decide)),
   (claim_C8 ['x'] ['x']).2.2.2 rfl⟩

/-- C10: n-gram similarity of two non-empty strings each shorter than the
gram size n is 1.0 regardless of their content (both gram multisets are
empty), and consequently the combined similarity of any two distinct
single-character strings is at least 0.6 (= 0.3 + 0.3 weight of the trivially
perfect 2-gram and 3-gram scores). -/
theorem claim_C10 (n : Nat) (a b : Str) (c d : Char) (_hn : 1 ≤ n) (_ha : a ≠ [])
    (_hb : b ≠ []) (hla : a.length < n) (hlb : b.length < n) (_hcd : c ≠ d) :
    ngram_similarity a b n = 1 ∧ (0.6 : ℚ) ≤ combined_similarity [c] [d] :=
  ⟨ngram_similarity_short a b n hla hlb, combined_similarity_single c d⟩

theorem claim_C10_witness :
    ngram_similarity ("ab".toList) ("xy".toList) 3 = 1 ∧
    (0.6 : ℚ) ≤ combined_similarity ['p'] ['q'] :=
  claim_C10 3 ("ab".toList) ("xy".toList) 'p' 'q' (by decide) (by decide)
    (by decide) (by decide) (by decide) (by decide)


theorem mem_foldl_remove (ids : List Str) (pb : Playbook) (b : Bullet)
    (hb : b ∈ pb.bullets) (h : ∀ id ∈ ids, ¬ b.id = id) :
    b ∈ (ids.foldl (fun acc id => acc.remove_bullet id) pb).bullets := by
  induction ids generalizing pb with
  | nil => exact hb
  | cons i rest ih =>
    refine ih (pb.remove_bullet i) ?_ ?_
    · show b ∈ (pb.bullets.filter (fun c => ¬ c.id = i))
      rw [List.mem_filter]
      exact ⟨hb, by simpa using h i (by simp)⟩
    · intro id hid
      exact h id (by simp [hid])

/-- C7: a bullet whose last recall lies within the last 7 days is never
removed by should_remove (its protection clause fires first), hence survives
every cleanup_low_value pass, whatever its age, success rate, content length
or importance. -/
theorem claim_C7 (now t : Int) (pb : Playbook) (b : Bullet)
    (hmem : b ∈ pb.bullets)
    (hnodup : (pb.bullets.map (fun c => c.id)).Nodup)
    (hlr : b.metadata.last_recall = some t)
    (h1 : t ≤ now) (h2 : now - t < 7 * 86400) :
    should_remove now b = false ∧ b ∈ (cleanup_low_value now pb).bullets := by
  have hdays : numDays (now - t) < 7 := by
    have h0 : (0 : Int) ≤ now - t := by omega
    rw [numDays, Int.tdiv_eq_ediv h0 (by norm_num)]
    omega
  have hsr : should_remove now b = false := by
    simp only [should_remove, hlr]
    rw [if_pos hdays]
  refine ⟨hsr, ?_⟩
  show b ∈ (((pb.bullets.filter (fun c => should_remove now c)).map (fun c => c.id)).foldl
      (fun acc id => acc.remove_bullet id) pb).bullets
  refine mem_foldl_remove _ pb b hmem ?_
  intro id hid heq
  rcases List.mem_map.mp hid with ⟨x, hx, hxid⟩
  rcases List.mem_filter.mp hx with ⟨hxmem, hxrem⟩
  have hxb : x = b := List.inj_on_of_nodup_map hnodup hxmem hmem (by rw [hxid, heq])
  rw [hxb] at hxrem
  rw [hsr] at hxrem
  exact absurd hxrem (by simp)

theorem claim_C7_witness :
    should_remove 100 sample_recent = false ∧
    sample_recent ∈ (cleanup_low_value 100 sample_pb_recent).bullets :=
  claim_C7 100 90 sample_pb_recent sample_recent (by decide) (by decide)
    (by decide) (by decide) (by decide)


theorem touchFirst_not_mem (id : Str) (f : Bullet → Bullet) :
    ∀ bs : List Bullet, ¬ id ∈ bs.map (fun b => b.id) → touchFirst id f bs = bs := by
  intro bs
  induction bs with
  | nil => intro _; rfl
  | cons b rest ih =>
    intro h
    rw [touchFirst, if_neg, ih]
    · intro hmem; exact h (by simp [hmem])
    · intro heq; exact h (by simp [heq])

theorem touchFirst_append (f : Bullet → Bullet) (b : Bullet) :
    ∀ (pre post : List Bullet), ¬ b.id ∈ pre.map (fun c => c.id) →
      touchFirst b.id f (pre ++ b :: post) = pre ++ f b :: post := by
  intro pre
  induction pre with
  | nil =>
    intro post _
    show touchFirst b.id f (b :: post) = f b :: post
    rw [touchFirst, if_pos rfl]
  | cons c rest ih =>
    intro post h
    show touchFirst b.id f (c :: (rest ++ b :: post)) = c :: (rest ++ f b :: post)
    rw [touchFirst, if_neg, ih post]
    · intro hmem; exact h (by simp [hmem])
    · intro heq; exact h (by simp [heq])

/-- C2: record_bullet_usage skips unknown ids without aborting the remaining
updates, and for a stored bullet one recorded usage increments recall_count
by exactly 1, stamps last_recall with the current time, bumps the success or
failure counter according to the outcome, and stores success_rate recomputed
exactly as success_count/(success_count+failure_count) over the new
counters.  (record_recall itself is modelled from the spec, see its
definition; the id lookup and skipping are storage.rs/recall_tracker.rs
behaviour.) -/
theorem claim_C2 (pb : Playbook) (i : Str) (rest : List Str) (context : Str)
    (success : Bool) (now : Int) (pre post : List Bullet) (b : Bullet) :
    (¬ i ∈ pb.bullets.map (fun c => c.id) →
      record_bullet_usage pb (i :: rest) context success now =
        record_bullet_usage pb rest context success now) ∧
    (¬ b.id ∈ pre.map (fun c => c.id) → pb.bullets = pre ++ b :: post →
      (record_bullet_usage pb [b.id] context success now).bullets =
        pre ++ { b with metadata := b.metadata.record_recall context success now } :: post ∧
      (b.metadata.record_recall context success now).recall_count =
        b.metadata.recall_count + 1 ∧
      (b.metadata.record_recall context success now).last_recall = some now ∧
      (b.metadata.record_recall context success now).success_rate =
        ((b.metadata.record_recall context success now).success_count : ℚ) /
          (((b.metadata.record_recall context success now).success_count +
            (b.metadata.record_recall context success now).failure_count : Nat) : ℚ) ∧
      (success = true →
        (b.metadata.record_recall context success now).success_count =
            b.metadata.success_count + 1 ∧
        (b.metadata.record_recall context success now).failure_count =
            b.metadata.failure_count) ∧
      (success = false →
        (b.metadata.record_recall context success now).failure_count =
            b.metadata.failure_count + 1 ∧
        (b.metadata.record_recall context success now).success_count =
            b.metadata.success_count)) := by
  constructor
  · intro h
    show ({ pb with bullets := (i :: rest).foldl _ pb.bullets } : Playbook) = _
    rw [List.foldl_cons, touchFirst_not_mem i _ pb.bullets h]
    rfl
  · intro hpre hsplit
    refine ⟨?_, ?_, ?_, ?_, ?_, ?_⟩
    · simp only [record_bullet_usage, List.foldl_cons, List.foldl_nil, hsplit]
      exact touchFirst_append _ b pre post hpre
    · cases success <;> rfl
    · cases success <;> rfl
    · cases success <;> rfl
    · intro hs; rw [hs]; exact ⟨rfl, rfl⟩
    · intro hs; rw [hs]; exact ⟨rfl, rfl⟩

theorem claim_C2_witness :
    (record_bullet_usage sample_pb1 ["zz".toList] "c".toList true 7 =
      record_bullet_usage sample_pb1 [] "c".toList true 7) ∧
    ((record_bullet_usage sample_pb1 [(sample_bullet "a" "hello" 0).id]
        "c".toList true 7).bullets =
      [{ sample_bullet "a" "hello" 0 with
          metadata := (sample_bullet "a" "hello" 0).metadata.record_recall
            "c".toList true 7 }] ∧
      ((sample_bullet "a" "hello" 0).metadata.record_recall "c".toList true 7).recall_count =
        (sample_bullet "a" "hello" 0).metadata.recall_count + 1) :=
  ⟨(claim_C2 sample_pb1 ("zz".toList) [] ("c".toList) true 7 [] []
      (sample_bullet "a" "hello" 0)).1 (by decide),
   ⟨((claim_C2 sample_pb1 ("zz".toList) [] ("c".toList) true 7 [] []
        (sample_bullet "a" "hello" 0)).2 (by decide) (by decide)).1,
    ((claim_C2 sample_pb1 ("zz".toList) [] ("c".toList) true 7 [] []
        (sample_bullet "a" "hello" 0)).2 (by decide) (by decide)).2.1⟩⟩


theorem foldl_add_bullet_version (l : List Bullet) (pb : Playbook) (now : Int) :
    (l.foldl (fun acc b => acc.add_bullet b now) pb).version = pb.version + l.length := by
  induction l generalizing pb with
  | nil => rfl
  | cons b rest ih =>
    rw [List.foldl_cons, ih]
    show pb.version + 1 + rest.length = pb.version + (rest.length + 1)
    omega

theorem foldl_add_bullet_bullets (l : List Bullet) (pb : Playbook) (now : Int) :
    (l.foldl (fun acc b => acc.add_bullet b now) pb).bullets = pb.bullets ++ l := by
  induction l generalizing pb with
  | nil => simp
  | cons b rest ih =>
    rw [List.foldl_cons, ih]
    show (pb.bullets ++ [b]) ++ rest = pb.bullets ++ b :: rest
    simp

theorem foldl_add_bullet_total (l : List Bullet) (pb : Playbook) (now : Int) :
    (l.foldl (fun acc b => acc.add_bullet b now) pb).total_bullets =
      pb.total_bullets + l.length := by
  induction l generalizing pb with
  | nil => rfl
  | cons b rest ih =>
    rw [List.foldl_cons, ih]
    show pb.total_bullets + 1 + rest.length = pb.total_bullets + (rest.length + 1)
    omega

/-- C5 amended: add_bullet and update_bullet (when the id is found) each
advance the version by exactly 1 and refresh last_updated; but
auto_archive rebuilds the playbook from a fresh Playbook, leaving
version = 1 + number of retained bullets, which can be SMALLER than the
pre-archive version (see the counterexample), so the version counter is not
monotone across archive-and-trim. -/
theorem claim_C5 (pb : Playbook) (b : Bullet) (now : Int) (archives : List Playbook)
    (max_bullets : Nat) :
    ((pb.add_bullet b now).version = pb.version + 1 ∧
      (pb.add_bullet b now).last_updated = now) ∧
    ((pb.update_bullet b now).2 = true →
      ((pb.update_bullet b now).1.version = pb.version + 1 ∧
        (pb.update_bullet b now).1.last_updated = now)) ∧
    (auto_archive pb archives max_bullets now).1.version =
      1 + ((sortByKeyDesc (fun c => c.updated_at) pb.bullets).take
            (7 * max_bullets / 10)).length := by
  refine ⟨⟨rfl, rfl⟩, ?_, ?_⟩
  · intro h
    rw [Playbook.update_bullet] at h ⊢
    by_cases hc : pb.bullets.any (fun c => c.id = b.id)
    · rw [if_pos hc]
      exact ⟨rfl, rfl⟩
    · rw [if_neg hc] at h
      exact absurd h (by simp)
  · simp only [auto_archive]
    rw [foldl_add_bullet_version]
    show 1 + _ = 1 + _
    rfl

theorem claim_C5_witness :
    (sample_pb1.add_bullet (sample_bullet "b" "x" 1) 9).version = sample_pb1.version + 1 ∧
    (sample_pb1.update_bullet (sample_bullet "a" "updated" 5) 9).1.version =
      sample_pb1.version + 1 :=
  ⟨(claim_C5 sample_pb1 (sample_bullet "b" "x" 1) 9 [] 0).1.1,
   ((claim_C5 sample_pb1 (sample_bullet "a" "updated" 5) 9 [] 0).2.1 (by decide)).1⟩

/-- C5 counterexample: merging one new bullet into a version-3 store with
capacity 1 triggers archive-and-trim, which rebuilds the playbook with
version 1 < 3: a store operation decreased the version. -/
theorem claim_C5_counterexample :
    sample_store.playbook.version = 3 ∧
    (merge_delta sample_store
        { new_bullets := [sample_bullet "c" "gamma text" 30], updated_bullets := [] }
        1 77).playbook.version = 1 ∧
    (merge_delta sample_store
        { new_bullets := [sample_bullet "c" "gamma text" 30], updated_bullets := [] }
        1 77).playbook.version < sample_store.playbook.version := by
  decide

/-- C6 amended: in query scoring the per-keyword content contribution is +2
for byte length 2..=3, +4 for 4..=6 and +5 (not +6) for anything longer; a
content hit of the full lowercased query adds +15 and a tag hit adds +3
(the constants score_bullet uses). -/
theorem claim_C6 (l : Nat) :
    (2 ≤ l → l ≤ 3 → word_score l = 2) ∧
    (4 ≤ l → l ≤ 6 → word_score l = 4) ∧
    (6 < l → word_score l = 5) ∧
    full_query_bonus = 15 ∧ tag_bonus = 3 := by
  refine ⟨?_, ?_, ?_, rfl, rfl⟩
  · intro h1 h2
    rw [word_score, if_pos ⟨h1, h2⟩]
  · intro h1 h2
    rw [word_score, if_neg (by omega), if_pos ⟨h1, h2⟩]
  · intro h
    rw [word_score, if_neg (by omega), if_neg (by omega)]

theorem claim_C6_witness :
    word_score 2 = 2 ∧ word_score 5 = 4 ∧ word_score 7 = 5 ∧
    full_query_bonus = 15 ∧ tag_bonus = 3 :=
  ⟨(claim_C6 2).1 (by decide) (by decide), (claim_C6 5).2.1 (by decide) (by decide),
   (claim_C6 7).2.2.1 (by decide), (claim_C6 0).2.2.2.1, (claim_C6 0).2.2.2.2⟩

/-- C6 counterexample: the query "octopus" extracts the single 7-byte keyword
"octopus"; on a bullet whose content is exactly that keyword (importance 0,
no tags), the code scores 15 (full-query hit) + 5 (long-keyword tier) = 20,
not the 15 + 6 = 21 the claimed +6 tier would give. -/
theorem claim_C6_counterexample :
    byteLen ("octopus".toList) = 7 ∧
    extract_keywords ("octopus".toList) = ["octopus".toList] ∧
    query_bullets_scored sample_pb_oct ("octopus".toList) 5 = [(sample_octopus, 20)] ∧
    ¬ query_bullets_scored sample_pb_oct ("octopus".toList) 5 = [(sample_octopus, 21)] := by
  decide

theorem sortByKeyDesc_pairwise {α β : Type} [LinearOrder β] (key : α → β) (l : List α) :
    (sortByKeyDesc key l).Pairwise (fun a b => key b ≤ key a) := by
  haveI hto : IsTotal α (fun a b => key b ≤ key a) := ⟨fun a b => le_total (key b) (key a)⟩
  haveI htr : IsTrans α (fun a b => key b ≤ key a) :=
    ⟨fun _ _ _ h1 h2 => le_trans h2 h1⟩
  exact List.sorted_insertionSort (fun a b => key b ≤ key a) l

theorem sortByKeyDesc_perm {α β : Type} [LinearOrder β] (key : α → β) (l : List α) :
    (sortByKeyDesc key l).Perm l :=
  List.perm_insertionSort _ l

theorem length_replaceFirst (b : Bullet) :
    ∀ bs : List Bullet, (replaceFirst bs b).length = bs.length := by
  intro bs
  induction bs with
  | nil => rfl
  | cons c rest ih =>
    rw [replaceFirst]
    by_cases h : c.id = b.id
    · rw [if_pos h]
      simp
    · rw [if_neg h]
      simp [ih]

theorem update_bullet_total (pb : Playbook) (b : Bullet) (now : Int) :
    ((pb.update_bullet b now).1.total_bullets = pb.total_bullets) ∧
    ((pb.update_bullet b now).1.bullets.length = pb.bullets.length) := by
  rw [Playbook.update_bullet]
  by_cases h : pb.bullets.any (fun c => c.id = b.id)
  · rw [if_pos h]
    exact ⟨rfl, length_replaceFirst b pb.bullets⟩
  · rw [if_neg h]
    exact ⟨rfl, rfl⟩

theorem foldl_update_total (l : List Bullet) (pb : Playbook) (now : Int) :
    ((l.foldl (fun acc b => (acc.update_bullet b now).1) pb).total_bullets =
      pb.total_bullets) ∧
    ((l.foldl (fun acc b => (acc.update_bullet b now).1) pb).bullets.length =
      pb.bullets.length) := by
  induction l generalizing pb with
  | nil => exact ⟨rfl, rfl⟩
  | cons b rest ih =>
    rw [List.foldl_cons]
    refine ⟨?_, ?_⟩
    · rw [(ih _).1, (update_bullet_total pb b now).1]
    · rw [(ih _).2, (update_bullet_total pb b now).2]

theorem apply_delta_wf (pb : Playbook) (delta : DeltaContext) (now : Int)
    (hwf : pb.total_bullets = pb.bullets.length) :
    (apply_delta_in_memory pb delta now).total_bullets =
      (apply_delta_in_memory pb delta now).bullets.length := by
  rw [apply_delta_in_memory]
  rw [(foldl_update_total _ _ now).1, (foldl_update_total _ _ now).2,
      foldl_add_bullet_total, foldl_add_bullet_bullets]
  simp [hwf]

/-- C3 amended: merging a NON-EMPTY delta whose resulting total exceeds the
capacity ends with total_bullets = floor(0.7 * capacity) (hence at most the
capacity and at about 70 percent of it), creates exactly one new archive
entry holding the full pre-trim playbook, and every dropped bullet is no more
recently updated than every retained one.  (An empty delta is a no-op even
when the store already exceeds capacity, see the counterexample.) -/
theorem claim_C3 (st : StorageState) (delta : DeltaContext) (max_bullets : Nat)
    (now : Int)
    (hwf : st.playbook.total_bullets = st.playbook.bullets.length)
    (hne : delta.is_empty = false)
    (hover : max_bullets < (apply_delta_in_memory st.playbook delta now).total_bullets) :
    (merge_delta st delta max_bullets now).archives =
      st.archives ++ [apply_delta_in_memory st.playbook delta now] ∧
    (merge_delta st delta max_bullets now).playbook.total_bullets =
      7 * max_bullets / 10 ∧
    (merge_delta st delta max_bullets now).playbook.total_bullets ≤ max_bullets ∧
    (∀ b ∈ (merge_delta st delta max_bullets now).playbook.bullets,
      ∀ c ∈ (apply_delta_in_memory st.playbook delta now).bullets,
        ¬ c ∈ (merge_delta st delta max_bullets now).playbook.bullets →
          c.updated_at ≤ b.updated_at) := by
  have hmerge : merge_delta st delta max_bullets now =
      { playbook := (auto_archive (apply_delta_in_memory st.playbook delta now)
          st.archives max_bullets now).1
        archives := (auto_archive (apply_delta_in_memory st.playbook delta now)
          st.archives max_bullets now).2 } := by
    rw [merge_delta, if_neg (by simp [hne]), apply_delta_in_memory]
    simp only []
    rw [if_pos (by rw [← apply_delta_in_memory]; exact hover)]
  have hpre : (apply_delta_in_memory st.playbook delta now).total_bullets =
      (apply_delta_in_memory st.playbook delta now).bullets.length :=
    apply_delta_wf st.playbook delta now hwf
  have hkc : 7 * max_bullets / 10 ≤ max_bullets := by omega
  have hbullets : (auto_archive (apply_delta_in_memory st.playbook delta now)
      st.archives max_bullets now).1.bullets =
      (sortByKeyDesc (fun b => b.updated_at)
        (apply_delta_in_memory st.playbook delta now).bullets).take
        (7 * max_bullets / 10) := by
    simp only [auto_archive]
    rw [foldl_add_bullet_bullets]
    rfl
  have hsortlen : (sortByKeyDesc (fun b => b.updated_at)
      (apply_delta_in_memory st.playbook delta now).bullets).length =
      (apply_delta_in_memory st.playbook delta now).bullets.length :=
    (sortByKeyDesc_perm _ _).length_eq
  have htotal : (auto_archive (apply_delta_in_memory st.playbook delta now)
      st.archives max_bullets now).1.total_bullets = 7 * max_bullets / 10 := by
    simp only [auto_archive]
    rw [foldl_add_bullet_total]
    show 0 + _ = _
    rw [List.length_take, hsortlen]
    have : max_bullets < (apply_delta_in_memory st.playbook delta now).bullets.length := by
      rw [← hpre]; exact hover
    omega
  refine ⟨?_, ?_, ?_, ?_⟩
  · rw [hmerge]
    simp only [auto_archive]
  · rw [hmerge]
    exact htotal
  · rw [hmerge]
    rw [htotal]
    exact hkc
  · rw [hmerge]
    simp only [hbullets]
    intro b hb c hc hcnot
    have hcs : c ∈ sortByKeyDesc (fun b => b.updated_at)
        (apply_delta_in_memory st.playbook delta now).bullets :=
      ((sortByKeyDesc_perm _ _).mem_iff).mpr hc
    have hsplit := List.take_append_drop (7 * max_bullets / 10)
      (sortByKeyDesc (fun b => b.updated_at)
        (apply_delta_in_memory st.playbook delta now).bullets)
    have hcdrop : c ∈ (sortByKeyDesc (fun b => b.updated_at)
        (apply_delta_in_memory st.playbook delta now).bullets).drop
        (7 * max_bullets / 10) := by
      rcases (List.mem_append.mp (by rw [hsplit]; exact hcs)) with h | h
      · exact absurd h hcnot
      · exact h
    have hpw := sortByKeyDesc_pairwise (fun b : Bullet => b.updated_at)
      (apply_delta_in_memory st.playbook delta now).bullets
    rw [← hsplit] at hpw
    exact ((List.pairwise_append.mp hpw).2.2) b hb c hcdrop

theorem claim_C3_witness :
    (merge_delta sample_store
        { new_bullets := [sample_bullet "c" "gamma text" 30], updated_bullets := [] }
        2 77).archives =
      sample_store.archives ++
        [apply_delta_in_memory sample_store.playbook
          { new_bullets := [sample_bullet "c" "gamma text" 30], updated_bullets := [] } 77] ∧
    (merge_delta sample_store
        { new_bullets := [sample_bullet "c" "gamma text" 30], updated_bullets := [] }
        2 77).playbook.total_bullets = 7 * 2 / 10 ∧
    (merge_delta sample_store
        { new_bullets := [sample_bullet "c" "gamma text" 30], updated_bullets := [] }
        2 77).playbook.total_bullets ≤ 2 :=
  ⟨(claim_C3 sample_store
      { new_bullets := [sample_bullet "c" "gamma text" 30], updated_bullets := [] }
      2 77 (by decide) (by decide) (by decide)).1,
   (claim_C3 sample_store
      { new_bullets := [sample_bullet "c" "gamma text" 30], updated_bullets := [] }
      2 77 (by decide) (by decide) (by decide)).2.1,
   (claim_C3 sample_store
      { new_bullets := [sample_bullet "c" "gamma text" 30], updated_bullets := [] }
      2 77 (by decide) (by decide) (by decide)).2.2.1⟩

/-- C3 counterexample: merge_delta returns immediately on an empty delta, so
a merge on a store already beyond capacity (2 bullets, capacity 1) leaves the
resulting total above the capacity and writes no archive, contradicting the
claim read over every merge. -/
theorem claim_C3_counterexample :
    merge_delta sample_store { new_bullets := [], updated_bullets := [] } 1 77 =
      sample_store ∧
    1 < (merge_delta sample_store { new_bullets := [], updated_bullets := [] }
          1 77).playbook.total_bullets ∧
    (merge_delta sample_store { new_bullets := [], updated_bullets := [] }
      1 77).archives = [] := by
  decide

theorem dedupInner_subset (w : BulletMetadata → ℚ) (bi : Bullet) :
    ∀ (rest : List Bullet) (marked : List Str) (x : Str),
      x ∈ marked → x ∈ dedupInner w bi rest marked := by
  intro rest
  induction rest with
  | nil => intro marked x hx; exact hx
  | cons bj rest' ih =>
    intro marked x hx
    rw [dedupInner]
    by_cases h1 : bj.id ∈ marked
    · rw [if_pos h1]; exact ih marked x hx
    · rw [if_neg h1]
      by_cases h2 : (0.85 : ℚ) ≤ combined_similarity (normalize_text bi.content true)
          (normalize_text bj.content true)
      · rw [if_pos h2]
        exact ih _ x (by simp [hx])
      · rw [if_neg h2]; exact ih marked x hx

theorem dedupOuter_subset (w : BulletMetadata → ℚ) :
    ∀ (bs : List Bullet) (marked : List Str) (x : Str),
      x ∈ marked → x ∈ dedupOuter w bs marked := by
  intro bs
  induction bs with
  | nil => intro marked x hx; exact hx
  | cons b rest ih =>
    intro marked x hx
    rw [dedupOuter]
    by_cases h1 : b.id ∈ marked
    · rw [if_pos h1]; exact ih marked x hx
    · rw [if_neg h1]
      exact ih _ x (dedupInner_subset w b rest marked x hx)

theorem dedupInner_pair (w : BulletMetadata → ℚ) (bi bj : Bullet)
    (hsim : (0.85 : ℚ) ≤ combined_similarity (normalize_text bi.content true)
      (normalize_text bj.content true)) :
    ∀ (rest : List Bullet) (marked : List Str), bj ∈ rest →
      bi.id ∈ dedupInner w bi rest marked ∨ bj.id ∈ dedupInner w bi rest marked := by
  intro rest
  induction rest with
  | nil => intro marked h; exact absurd h (by simp)
  | cons x rest' ih =>
    intro marked hmem
    rw [dedupInner]
    rcases List.mem_cons.mp hmem with heq | htail
    · subst heq
      by_cases h1 : bj.id ∈ marked
      · rw [if_pos h1]
        exact Or.inr (dedupInner_subset w bi rest' marked bj.id h1)
      · rw [if_neg h1, if_pos hsim]
        by_cases hw : w bj.metadata ≤ w bi.metadata
        · rw [if_pos hw]
          exact Or.inr (dedupInner_subset w bi rest' _ bj.id (by simp))
        · rw [if_neg hw]
          exact Or.inl (dedupInner_subset w bi rest' _ bi.id (by simp))
    · by_cases h1 : x.id ∈ marked
      · rw [if_pos h1]; exact ih marked htail
      · rw [if_neg h1]
        by_cases h2 : (0.85 : ℚ) ≤ combined_similarity (normalize_text bi.content true)
            (normalize_text x.content true)
        · rw [if_pos h2]; exact ih _ htail
        · rw [if_neg h2]; exact ih marked htail

theorem dedupOuter_pair (w : BulletMetadata → ℚ) (bi bj : Bullet)
    (hsim : (0.85 : ℚ) ≤ combined_similarity (normalize_text bi.content true)
      (normalize_text bj.content true)) :
    ∀ (bs : List Bullet) (marked : List Str), [bi, bj].Sublist bs →
      bi.id ∈ dedupOuter w bs marked ∨ bj.id ∈ dedupOuter w bs marked := by
  intro bs
  induction bs with
  | nil => intro marked h; exact absurd h (by simp)
  | cons x bs' ih =>
    intro marked hsub
    rw [dedupOuter]
    cases hsub with
    | cons _ htail =>
      by_cases h1 : x.id ∈ marked
      · rw [if_pos h1]; exact ih marked htail
      · rw [if_neg h1]; exact ih _ htail
    | cons₂ _ htail =>
      have hbj : bj ∈ bs' := by
        have := htail.subset
        simp only [List.cons_subset, List.nil_subset, and_true] at this
        exact this
      by_cases h1 : bi.id ∈ marked
      · rw [if_pos h1]
        exact Or.inl (dedupOuter_subset w bs' marked bi.id h1)
      · rw [if_neg h1]
        rcases dedupInner_pair w bi bj hsim bs' marked hbj with h | h
        · exact Or.inl (dedupOuter_subset w bs' _ bi.id h)
        · exact Or.inr (dedupOuter_subset w bs' _ bj.id h)

theorem foldl_remove_bullets : ∀ (ids : List Str) (pb : Playbook),
    (ids.foldl (fun acc id => acc.remove_bullet id) pb).bullets =
      pb.bullets.filter (fun b => decide (¬ b.id ∈ ids)) := by
  intro ids
  induction ids with
  | nil => intro pb; simp
  | cons i rest ih =>
    intro pb
    rw [List.foldl_cons, ih]
    show ((pb.bullets.filter (fun b => ¬ b.id = i)).filter
      (fun b => decide (¬ b.id ∈ rest))) = _
    rw [List.filter_filter]
    apply List.filter_congr
    intro b _
    by_cases h1 : b.id = i <;> by_cases h2 : b.id ∈ rest <;>
      simp [h1, h2]


theorem dedup_survivors_pairwise (w : BulletMetadata → ℚ) (pb : Playbook) :
    (deduplicate_similar w pb).bullets.Pairwise
      (fun b c => combined_similarity (normalize_text b.content true)
        (normalize_text c.content true) < 0.85) := by
  rw [List.pairwise_iff_forall_sublist]
  intro a b hsub
  have hbullets : (deduplicate_similar w pb).bullets =
      pb.bullets.filter (fun b => decide (¬ b.id ∈ dedupOuter w pb.bullets [])) := by
    rw [deduplicate_similar]
    exact foldl_remove_bullets _ pb
  rw [hbullets] at hsub
  have hamem : a ∈ pb.bullets.filter (fun b => decide (¬ b.id ∈ dedupOuter w pb.bullets [])) :=
    hsub.subset (by simp)
  have hbmem : b ∈ pb.bullets.filter (fun b => decide (¬ b.id ∈ dedupOuter w pb.bullets [])) :=
    hsub.subset (by simp)
  have ha : ¬ a.id ∈ dedupOuter w pb.bullets [] := by
    have := (List.mem_filter.mp hamem).2
    simpa using this
  have hb : ¬ b.id ∈ dedupOuter w pb.bullets [] := by
    have := (List.mem_filter.mp hbmem).2
    simpa using this
  have hsub2 : [a, b].Sublist pb.bullets := hsub.trans (List.filter_sublist _)
  by_contra hge
  push_neg at hge
  rcases dedupOuter_pair w a b hge pb.bullets [] hsub2 with h | h
  · exact ha h
  · exact hb h

theorem dedup_two_bullets (w : BulletMetadata → ℚ) (pb : Playbook) (b1 b2 : Bullet)
    (hbl : pb.bullets = [b1, b2]) (hid : ¬ b1.id = b2.id)
    (hsim : (0.85 : ℚ) ≤ combined_similarity (normalize_text b1.content true)
      (normalize_text b2.content true)) :
    (deduplicate_similar w pb).bullets =
      (if w b2.metadata ≤ w b1.metadata then [b1] else [b2]) := by
  have hbullets : (deduplicate_similar w pb).bullets =
      pb.bullets.filter (fun b => decide (¬ b.id ∈ dedupOuter w pb.bullets [])) := by
    rw [deduplicate_similar]
    exact foldl_remove_bullets _ pb
  rw [hbullets, hbl]
  have hinner : dedupInner w b1 [b2] [] =
      [if w b2.metadata ≤ w b1.metadata then b2.id else b1.id] := by
    rw [dedupInner, if_neg (by simp), if_pos hsim]
    by_cases hw : w b2.metadata ≤ w b1.metadata
    · rw [if_pos hw]
      rfl
    · rw [if_neg hw]
      rfl
  have houter : dedupOuter w [b1, b2] [] =
      [if w b2.metadata ≤ w b1.metadata then b2.id else b1.id] := by
    rw [dedupOuter, if_neg (by simp)]
    show dedupOuter w [b2] (dedupInner w b1 [b2] []) = _
    rw [hinner]
    by_cases hw : w b2.metadata ≤ w b1.metadata
    · rw [if_pos hw]
      rw [dedupOuter, if_pos (by simp)]
      rfl
    · rw [if_neg hw]
      have hne : ¬ b2.id ∈ [b1.id] := by
        simp only [List.mem_singleton]
        intro h
        exact hid (Eq.symm h)
      rw [dedupOuter, if_neg hne]
      rfl
  rw [houter]
  by_cases hw : w b2.metadata ≤ w b1.metadata
  · rw [if_pos hw]
    rw [if_pos hw]
    simp [hid]
  · rw [if_neg hw]
    rw [if_neg hw]
    have hne : ¬ b2.id = b1.id := fun h => hid (Eq.symm h)
    simp [hne]

/-- C4 amended: after one dedup pass no two surviving bullets have combined
similarity of their normalized contents at least 0.85 (so every such pair
loses at least one member, though cascading removals can delete BOTH, see
the counterexample); and when the store holds exactly the two similar
bullets, exactly one survives: the one with the higher dynamic weight, the
first-encountered one on an exact tie (weight_i >= weight_j keeps i). -/
theorem claim_C4 (w : BulletMetadata → ℚ) (pb : Playbook) (b1 b2 : Bullet)
    (hbl : pb.bullets = [b1, b2]) (hid : ¬ b1.id = b2.id)
    (hsim : (0.85 : ℚ) ≤ combined_similarity (normalize_text b1.content true)
      (normalize_text b2.content true)) :
    (deduplicate_similar w pb).bullets =
      (if w b2.metadata ≤ w b1.metadata then [b1] else [b2]) ∧
    ∀ pb2 : Playbook, (deduplicate_similar w pb2).bullets.Pairwise
      (fun b c => combined_similarity (normalize_text b.content true)
        (normalize_text c.content true) < 0.85) :=
  ⟨dedup_two_bullets w pb b1 b2 hbl hid hsim,
   fun pb2 => dedup_survivors_pairwise w pb2⟩

theorem claim_C4_witness :
    (deduplicate_similar (fun m => m.importance) sample_pb_two).bullets =
      [sample_bullet "a" "same" 0] ∧
    (deduplicate_similar (fun m => m.importance) sample_pb3).bullets.Pairwise
      (fun b c => combined_similarity (normalize_text b.content true)
        (normalize_text c.content true) < 0.85) := by
  have h := claim_C4 (fun m => m.importance) sample_pb_two
    (sample_bullet "a" "same" 0) (sample_bullet "b" "same" 0)
    (by decide) (by decide) (by decide)
  exact ⟨by rw [h.1]; decide, h.2 sample_pb3⟩

/-- C4 counterexample: with three pairwise-similar bullets a, b, c (identical
contents, equal weights) the pass first removes b and c against comparand a;
for the pair (b, c), whose combined similarity is 1 >= 0.85, NEITHER bullet
remains, refuting "exactly one of the two remains". -/
theorem claim_C4_counterexample :
    (0.85 : ℚ) ≤ combined_similarity
      (normalize_text (sample_bullet "b" "same" 0).content true)
      (normalize_text (sample_bullet "c" "same" 0).content true) ∧
    ¬ sample_bullet "b" "same" 0 ∈ (deduplicate_similar (fun _ => 1) sample_pb3).bullets ∧
    ¬ sample_bullet "c" "same" 0 ∈ (deduplicate_similar (fun _ => 1) sample_pb3).bullets := by
  decide

theorem containsStr_nil (hay : Str) : containsStr hay [] = true := by
  cases hay <;> rfl

theorem extract_keywords_nil : extract_keywords [] = [] := by decide

theorem foldl_tool_ge (ql : Str) (l : List Str) : ∀ s : ℚ,
    s ≤ l.foldl (fun s tool => if containsStr ql (toLowerStr tool) then s + 3 else s) s := by
  induction l with
  | nil => intro s; exact le_refl s
  | cons t rest ih =>
    intro s
    rw [List.foldl_cons]
    refine le_trans ?_ (ih _)
    by_cases h : containsStr ql (toLowerStr t)
    · rw [if_pos h]; linarith
    · rw [if_neg h]

theorem score_bullet_empty_query (b : Bullet) (h : 0 ≤ b.metadata.importance) :
    2 < score_bullet [] (normalize_text [] true) [] b := by
  rw [score_bullet]
  simp only [containsStr_nil, if_true, List.foldl_nil, List.isEmpty_nil, Bool.not_true,
    Bool.false_eq_true, if_false]
  norm_num
  have h1 : (15 : ℚ) + b.metadata.importance * 3 ≤
      (if b.success_rate > 0.7 then 15 + b.metadata.importance * 3 + 2
       else 15 + b.metadata.importance * 3) := by
    by_cases hs : b.success_rate > 0.7
    · rw [if_pos hs]; linarith
    · rw [if_neg hs]
  have h2 := foldl_tool_ge [] b.metadata.related_tools
    (if b.success_rate > 0.7 then 15 + b.metadata.importance * 3 + 2
     else 15 + b.metadata.importance * 3)
  calc (2 : ℚ) < 15 + b.metadata.importance * 3 := by linarith
    _ ≤ _ := le_trans h1 h2


theorem filterMap_score_all (score : Bullet → ℚ) :
    ∀ l : List Bullet, (∀ b ∈ l, 2 < score b) →
      (l.filterMap (fun b => if score b > 2 then some (b, score b) else none)).length =
        l.length := by
  intro l
  induction l with
  | nil => intro _; rfl
  | cons b rest ih =>
    intro h
    rw [List.filterMap_cons, if_pos (h b (by simp))]
    simp only [List.length_cons]
    rw [ih (fun c hc => h c (by simp [hc]))]

theorem query_scored_sorted (pb : Playbook) (q : Str) (k : Nat) :
    (query_bullets_scored pb q k).Pairwise (fun a b => b.2 ≤ a.2) := by
  rw [query_bullets_scored]
  exact List.Pairwise.sublist (List.take_sublist k _) (sortByKeyDesc_pairwise (fun r : Bullet × ℚ => r.2) _)

theorem query_len_le (pb : Playbook) (q : Str) (k : Nat) :
    (query_bullets pb q k).length ≤ k := by
  rw [query_bullets, List.length_map, query_bullets_scored]
  exact le_trans (List.length_take_le k _) (le_refl k)

/-- C1 amended: query of the empty string returns min(k, total) bullets, NOT
the empty list: every bullet's lowercased content contains the empty query
string, so each one receives the +15 full-query bonus and passes the score
floor (given the data-model invariant importance >= 0); for every query the
result never exceeds k and is sorted descending by the computed score. -/
theorem claim_C1 (pb : Playbook) (q : Str) (k : Nat)
    (himp : ∀ b ∈ pb.bullets, 0 ≤ b.metadata.importance) :
    (query_bullets pb [] k).length = min k pb.bullets.length ∧
    (query_bullets pb q k).length ≤ k ∧
    (query_bullets_scored pb q k).Pairwise (fun a b => b.2 ≤ a.2) := by
  refine ⟨?_, query_len_le pb q k, query_scored_sorted pb q k⟩
  rw [query_bullets, List.length_map, query_bullets_scored]
  show ((sortByKeyDesc _ (pb.bullets.filterMap _)).take k).length = _
  rw [List.length_take, (sortByKeyDesc_perm _ _).length_eq]
  have hlow : toLowerStr [] = [] := rfl
  rw [hlow, extract_keywords_nil]
  rw [filterMap_score_all _ pb.bullets
    (fun b hb => score_bullet_empty_query b (himp b hb))]

theorem claim_C1_witness :
    (query_bullets sample_pb1 [] 5).length = min 5 sample_pb1.bullets.length ∧
    (query_bullets sample_pb1 ("hello".toList) 5).length ≤ 5 ∧
    (query_bullets_scored sample_pb1 ("hello".toList) 5).Pairwise
      (fun a b => b.2 ≤ a.2) :=
  claim_C1 sample_pb1 ("hello".toList) 5 (by decide)

/-- C1 counterexample: on a one-bullet store the empty query returns that
bullet (content "hello" contains the empty string, scoring 15 + importance*3
= 16.5 > 2), not the empty list the claim requires. -/
theorem claim_C1_counterexample :
    query_bullets sample_pb1 [] 5 = [sample_bullet "a" "hello" 0] ∧
    ¬ query_bullets sample_pb1 [] 5 = [] := by
  decide

end ACE
